import Mathlib

/-
Verification of the F1 race replay engine (`src/arcade_replay.py`).

The embedding below mirrors the source:
  * `onUpdate` / `onKeyPress`   — `F1ReplayWindow.on_update` / `on_key_press`
  * `updateScaling` / `worldToScreen` — `update_scaling` / `world_to_screen`
  * `leaderboardList` / `leaderEntry` — the leaderboard and leader logic in `on_draw`
  * `buildTrack`, `interpolatePoints` — `build_track_from_example_lap`, `_interpolate_points`

Machine numbers: playback indices are `ℤ`, speeds and screen/world
coordinates in the viewport and HUD logic are `ℚ`; the track geometry
(which uses `np.sqrt`) is modelled over `ℝ`.
-/

namespace F1Replay

/-! ## Playback controller (`on_update`, `on_key_press`) -/

/-- Python `int()` applied to a (rational-valued) float: truncation toward zero. -/
def pyInt (q : ℚ) : ℤ := Int.tdiv q.num q.den

/-- The mutable playback state of `F1ReplayWindow`:
`frame_index`, `n_frames`, `playback_speed`, `paused`. -/
structure Playback where
  frameIndex : ℤ
  nFrames : ℤ
  speed : ℚ
  paused : Bool
deriving DecidableEq

/-- `F1ReplayWindow.on_update`: when not paused, advance `frame_index` by
`max(1, int(playback_speed))` and clamp to `n_frames - 1`. -/
def onUpdate (s : Playback) : Playback :=
  if s.paused then s
  else
    let step : ℤ := max 1 (pyInt s.speed)
    let fi := s.frameIndex + step
    if s.nFrames ≤ fi then { s with frameIndex := s.nFrames - 1 }
    else { s with frameIndex := fi }

/-- Keys handled by `F1ReplayWindow.on_key_press` (plus a catch-all). -/
inductive Key
  | space | right | left | up | down | key1 | key2 | key3 | key4 | other
deriving DecidableEq

/-- `F1ReplayWindow.on_key_press`. -/
def onKeyPress (s : Playback) (k : Key) : Playback :=
  match k with
  | .space => { s with paused := !s.paused }
  | .right => { s with frameIndex := min (s.frameIndex + 10) (s.nFrames - 1) }
  | .left  => { s with frameIndex := max (s.frameIndex - 10) 0 }
  | .up    => { s with speed := s.speed * 2 }
  | .down  => { s with speed := max (1/10) (s.speed / 2) }
  | .key1  => { s with speed := 1/2 }
  | .key2  => { s with speed := 1 }
  | .key3  => { s with speed := 2 }
  | .key4  => { s with speed := 4 }
  | .other => s

/-- Integer clamp, used to state the seek contract. -/
def clampInt (x lo hi : ℤ) : ℤ := max lo (min x hi)

/-! ## Viewport (`update_scaling`, `world_to_screen`) -/

/-- The viewport-relevant fields of `F1ReplayWindow`: world bounds, the
derived scale/translation, and the cached track polylines. -/
structure Viewport where
  xMin : ℚ
  xMax : ℚ
  yMin : ℚ
  yMax : ℚ
  worldScale : ℚ
  tx : ℚ
  ty : ℚ
  worldInner : List (ℚ × ℚ)
  worldOuter : List (ℚ × ℚ)
  screenInner : List (ℚ × ℚ)
  screenOuter : List (ℚ × ℚ)

/-- `world_to_screen`: the pure affine map `(x, y) ↦ (scale*x + tx, scale*y + ty)`. -/
def worldToScreen (v : Viewport) (x y : ℚ) : ℚ × ℚ :=
  (v.worldScale * x + v.tx, v.worldScale * y + v.ty)

/-- The 5% padding fraction of `update_scaling`. -/
def padFrac : ℚ := 1/20

/-- `world_w = max(1.0, x_max - x_min)`. -/
def worldW (v : Viewport) : ℚ := max 1 (v.xMax - v.xMin)

/-- `world_h = max(1.0, y_max - y_min)`. -/
def worldH (v : Viewport) : ℚ := max 1 (v.yMax - v.yMin)

/-- `update_scaling(screen_w, screen_h)`: recompute scale and translation so
the world bounding box fits centered with symmetric padding, then refresh the
cached screen-space track polylines. -/
def updateScaling (v : Viewport) (screenW screenH : ℚ) : Viewport :=
  let usableW := screenW * (1 - 2 * padFrac)
  let usableH := screenH * (1 - 2 * padFrac)
  let scale := min (usableW / worldW v) (usableH / worldH v)
  let worldCx := (v.xMin + v.xMax) / 2
  let worldCy := (v.yMin + v.yMax) / 2
  let v2 : Viewport :=
    { v with
      worldScale := scale
      tx := screenW / 2 - scale * worldCx
      ty := screenH / 2 - scale * worldCy }
  { v2 with
    screenInner := v.worldInner.map (fun p => worldToScreen v2 p.1 p.2)
    screenOuter := v.worldOuter.map (fun p => worldToScreen v2 p.1 p.2) }

/-! ## Frames, leaderboard and leader (`on_draw`) -/

/-- One driver's entry in a frame: position plus the optional `lap`, `dist`
and `rel_dist` dictionary fields (`none` = key absent). -/
structure DriverPos where
  x : ℚ
  y : ℚ
  lap : Option ℤ
  dist : Option ℚ
  relDist : Option ℚ
deriving DecidableEq

/-- A frame: timestamp `t` plus the driver mapping, as an association list in
the dict's (insertion-ordered) iteration order. -/
structure Frame where
  t : ℚ
  drivers : List (String × DriverPos)

/-- Leaderboard sort key: `pos.get("dist", 999)`. -/
def lbKey (p : DriverPos) : ℚ := p.dist.getD 999

/-- Retirement test: `pos.get("rel_dist", 0) == 1`. -/
def isOut (p : DriverPos) : Bool := p.relDist.getD 0 == 1

/-- Leader sort key: `(pos.get("lap", 1), pos.get("dist", 0))`. -/
def leaderKey (p : DriverPos) : ℤ × ℚ := (p.lap.getD 1, p.dist.getD 0)

/-- The descending-by-distance relation of the leaderboard sort
(`key=lambda x: x[2].get("dist", 999), reverse=True`). -/
def lbRel (a b : String × DriverPos) : Prop := lbKey b.2 ≤ lbKey a.2

instance : DecidableRel lbRel := fun a b =>
  inferInstanceAs (Decidable (lbKey b.2 ≤ lbKey a.2))

instance : IsTotal (String × DriverPos) lbRel :=
  ⟨fun a b => le_total (lbKey b.2) (lbKey a.2)⟩

instance : IsTrans (String × DriverPos) lbRel :=
  ⟨fun _ _ _ h1 h2 => le_trans h2 h1⟩

/-- The sorted leaderboard: Python's `list.sort` is a stable sort, modelled by
the stable `List.insertionSort` under the non-strict descending relation. -/
def leaderboardList (f : Frame) : List (String × DriverPos) :=
  List.insertionSort lbRel f.drivers

/-- Python `f"{n:>2}"`: right-align in width 2 with spaces. -/
def padRight2 (n : ℕ) : String :=
  let s := toString n
  if s.length < 2 then " " ++ s else s

/-- One leaderboard row: `f"{pos:>2}. {code}   OUT"` or `f"{pos:>2}. {code}"`. -/
def rowText (rank : ℕ) (code : String) (p : DriverPos) : String :=
  if isOut p then padRight2 rank ++ ". " ++ code ++ "   OUT"
  else padRight2 rank ++ ". " ++ code

/-- The rendered leaderboard rows, top to bottom. -/
def leaderboardRows (f : Frame) : List String :=
  (leaderboardList f).mapIdx (fun i e => rowText (i + 1) e.1 e.2)

/-- Strict lexicographic order on `(lap, dist)` pairs: Python tuple `<`. -/
def tupLt (a b : ℤ × ℚ) : Prop := a.1 < b.1 ∨ (a.1 = b.1 ∧ a.2 < b.2)

instance : DecidableRel tupLt := fun a b =>
  inferInstanceAs (Decidable (a.1 < b.1 ∨ (a.1 = b.1 ∧ a.2 < b.2)))

/-- One comparison step of Python `max`: a later element replaces the current
best only if its key is strictly greater. -/
def leaderStep (best x : String × DriverPos) : String × DriverPos :=
  if tupLt (leaderKey best.2) (leaderKey x.2) then x else best

/-- `max(frame["drivers"], key=...)`: fold keeping the first maximum;
`none` on an empty mapping (Python `max` raises there). -/
def leaderEntry (f : Frame) : Option (String × DriverPos) :=
  match f.drivers with
  | [] => none
  | e :: es => some (es.foldl leaderStep e)

/-- The leader's code. -/
def leaderCode (f : Frame) : Option String := (leaderEntry f).map Prod.fst

/-- `leader_lap = frame["drivers"][leader_code].get("lap", 1)`. -/
def leaderLap (f : Frame) : Option ℤ := (leaderEntry f).map (fun e => e.2.lap.getD 1)

/-- Python float `%` with a positive modulus: `a - m * floor(a / m)`. -/
def pymod (a m : ℚ) : ℚ := a - m * ⌊a / m⌋

/-- `int(t // 3600)`. -/
def raceHours (t : ℚ) : ℤ := ⌊t / 3600⌋

/-- `int((t % 3600) // 60)`. -/
def raceMinutes (t : ℚ) : ℤ := ⌊pymod t 3600 / 60⌋

/-- `int(t % 60)`. -/
def raceSeconds (t : ℚ) : ℤ := pyInt (pymod t 60)

/-- Python `f"{n:02}"`: zero-pad to width 2. -/
def pad02 (n : ℤ) : String :=
  let s := toString n
  if s.length < 2 then "0" ++ s else s

/-- `f"{hours:02}:{minutes:02}:{seconds:02}"`. -/
def timeStr (t : ℚ) : String :=
  pad02 (raceHours t) ++ ":" ++ pad02 (raceMinutes t) ++ ":" ++ pad02 (raceSeconds t)

/-- The HUD lap line `f"Lap {leader_lap}"` (absent for an empty mapping). -/
def hudLapText (f : Frame) : Option String :=
  (leaderLap f).map (fun l => "Lap " ++ toString l)

/-- The HUD race-time line `f"Race: {time_str}"`. -/
def hudTimeText (f : Frame) : String := "Race: " ++ timeStr f.t

/-! ## Track geometry (`build_track_from_example_lap`, `_interpolate_points`)

Modelled over `ℝ` (the source computes with `np.sqrt` etc.). Lists stand for
the 1-D numpy arrays; out-of-range indices use the default `0` and are only
reached under length hypotheses matching the source's equal-length arrays. -/

/-- `np.gradient` at one index: one-sided difference at the ends, central
difference (half the two-apart difference) in the interior. -/
noncomputable def gradAt (a : List ℝ) (i : ℕ) : ℝ :=
  if i = 0 then a.getD 1 0 - a.getD 0 0
  else if i = a.length - 1 then a.getD (a.length - 1) 0 - a.getD (a.length - 2) 0
  else (a.getD (i + 1) 0 - a.getD (i - 1) 0) / 2

/-- `norm = np.sqrt(dx**2 + dy**2)` at index `i`. -/
noncomputable def normAt (xs ys : List ℝ) (i : ℕ) : ℝ :=
  Real.sqrt (gradAt xs i ^ 2 + gradAt ys i ^ 2)

/-- The guarded norm after `norm[norm == 0] = 1.0`. -/
noncomputable def gNormAt (xs ys : List ℝ) (i : ℕ) : ℝ :=
  if normAt xs ys i = 0 then 1 else normAt xs ys i

/-- Normal x-component: `nx = -dy` after `dy /= norm`. -/
noncomputable def nxAt (xs ys : List ℝ) (i : ℕ) : ℝ :=
  -(gradAt ys i / gNormAt xs ys i)

/-- Normal y-component: `ny = dx` after `dx /= norm`. -/
noncomputable def nyAt (xs ys : List ℝ) (i : ℕ) : ℝ :=
  gradAt xs i / gNormAt xs ys i

/-- The `track_width` default (200 world units) used by the window. -/
def trackWidth : ℝ := 200

/-- `x_inner = plot_x_ref - nx * (track_width / 2)` at index `i`. -/
noncomputable def xInnerAt (xs ys : List ℝ) (i : ℕ) : ℝ :=
  xs.getD i 0 - nxAt xs ys i * (trackWidth / 2)

/-- `y_inner = plot_y_ref - ny * (track_width / 2)` at index `i`. -/
noncomputable def yInnerAt (xs ys : List ℝ) (i : ℕ) : ℝ :=
  ys.getD i 0 - nyAt xs ys i * (trackWidth / 2)

/-- `x_outer = plot_x_ref + nx * (track_width / 2)` at index `i`. -/
noncomputable def xOuterAt (xs ys : List ℝ) (i : ℕ) : ℝ :=
  xs.getD i 0 + nxAt xs ys i * (trackWidth / 2)

/-- `y_outer = plot_y_ref + ny * (track_width / 2)` at index `i`. -/
noncomputable def yOuterAt (xs ys : List ℝ) (i : ℕ) : ℝ :=
  ys.getD i 0 + nyAt xs ys i * (trackWidth / 2)

/-- The inner boundary x-array. -/
noncomputable def xInner (xs ys : List ℝ) : List ℝ :=
  (List.range xs.length).map (xInnerAt xs ys)

/-- The inner boundary y-array. -/
noncomputable def yInner (xs ys : List ℝ) : List ℝ :=
  (List.range ys.length).map (yInnerAt xs ys)

/-- The outer boundary x-array. -/
noncomputable def xOuter (xs ys : List ℝ) : List ℝ :=
  (List.range xs.length).map (xOuterAt xs ys)

/-- The outer boundary y-array. -/
noncomputable def yOuter (xs ys : List ℝ) : List ℝ :=
  (List.range ys.length).map (yOuterAt xs ys)

/-- `build_track_from_example_lap`, boundary outputs. `np.gradient` raises
`ValueError` on arrays of fewer than 2 elements, hence the `Option`.
(The bounding-box outputs are not needed by the properties below.) -/
noncomputable def buildTrack (xs ys : List ℝ) :
    Option (List ℝ × List ℝ × List ℝ × List ℝ) :=
  if xs.length < 2 ∨ ys.length < 2 then none
  else some (xInner xs ys, yInner xs ys, xOuter xs ys, yOuter xs ys)

/-- `np.linspace(0, 1, n)`. -/
noncomputable def linspace01 (n : ℕ) : List ℝ :=
  (List.range n).map (fun i : ℕ => (i : ℝ) / ((n : ℝ) - 1))

/-- `np.interp(t, xp, fp)` for increasing `xp`: clamp below the first node,
linear interpolation inside each cell, constant after the last node. -/
noncomputable def interp1 : List ℝ → List ℝ → ℝ → ℝ
  | [], _, _ => 0
  | _ :: _, [], _ => 0
  | [_], f0 :: _, _ => f0
  | _ :: _ :: _, [f0], _ => f0
  | x0 :: x1 :: xr, f0 :: f1 :: fr, t =>
    if t ≤ x0 then f0
    else if t ≤ x1 then f0 + (f1 - f0) * (t - x0) / (x1 - x0)
    else interp1 (x1 :: xr) (f1 :: fr) t

/-- `_interpolate_points(xs, ys, interp_points)`: resample both coordinate
arrays against a normalized parameter and zip into points. -/
noncomputable def interpolatePoints (xs ys : List ℝ) (m : ℕ) : List (ℝ × ℝ) :=
  let tOld := linspace01 xs.length
  (linspace01 m).map (fun t => (interp1 tOld xs t, interp1 tOld ys t))

/-- `self.world_inner_points` (resampled at the default 2000 points). -/
noncomputable def worldInnerPoints (xs ys : List ℝ) : List (ℝ × ℝ) :=
  interpolatePoints (xInner xs ys) (yInner xs ys) 2000

/-- `self.world_outer_points` (resampled at the default 2000 points). -/
noncomputable def worldOuterPoints (xs ys : List ℝ) : List (ℝ × ℝ) :=
  interpolatePoints (xOuter xs ys) (yOuter xs ys) 2000

/-! ## Concrete states and frames used in the examples -/

/-- Fresh playback state for a 100-frame replay at speed 1. -/
def demoPlayback : Playback := ⟨0, 100, 1, false⟩

/-- A sample viewport with world bounds `[0,10] × [0,20]`. -/
def demoViewport : Viewport := ⟨0, 10, 0, 20, 1, 0, 0, [], [], [], []⟩

/-- Frame with drivers A (dist 10), B (dist 30), C (dist 20, rel_dist 1). -/
def frameABC : Frame :=
  ⟨0, [("A", ⟨0, 0, none, some 10, none⟩),
       ("B", ⟨0, 0, none, some 30, none⟩),
       ("C", ⟨0, 0, none, some 20, some 1⟩)]⟩

/-- Frame with drivers A (lap 2, dist 50) and B (lap 3, dist 10). -/
def frameLap : Frame :=
  ⟨3725, [("A", ⟨0, 0, some 2, some 50, none⟩),
          ("B", ⟨0, 0, some 3, some 10, none⟩)]⟩

/-- Frame with X lacking both `lap` and `dist`, and Y (lap 1, dist 5). -/
def frameMissing : Frame :=
  ⟨0, [("X", ⟨0, 0, none, none, none⟩),
       ("Y", ⟨0, 0, some 1, some 5, none⟩)]⟩

/-! ## Helper lemmas -/

/-- Under the outer `max 1`, Python truncation `int()` agrees with `floor`. -/
theorem max_one_pyInt (q : ℚ) : max 1 (pyInt q) = max 1 ⌊q⌋ := by
  rcases le_or_lt 0 q with h | h
  · have hnum : 0 ≤ q.num := Rat.num_nonneg.mpr h
    have hden : (0 : ℤ) ≤ (q.den : ℤ) := Int.ofNat_nonneg _
    rw [pyInt, Int.tdiv_eq_ediv hnum hden, ← Rat.floor_def]
  · have h1 : ⌊q⌋ ≤ 0 := Int.floor_nonpos h.le
    have h2 : pyInt q ≤ 0 := by
      have hnum : q.num ≤ 0 := Rat.num_nonpos.mpr h.le
      have := Int.tdiv_nonneg (a := -q.num) (b := (q.den : ℤ))
        (by omega) (Int.ofNat_nonneg _)
      rw [Int.neg_tdiv] at this
      unfold pyInt
      omega
    rw [max_eq_left (by omega), max_eq_left (by omega)]

/-- `on_update` never touches `n_frames`, `speed` or `paused`. -/
theorem onUpdate_preserves (s : Playback) :
    (onUpdate s).nFrames = s.nFrames ∧ (onUpdate s).speed = s.speed ∧
      (onUpdate s).paused = s.paused := by
  by_cases hp : s.paused <;>
    by_cases hn : s.nFrames ≤ s.frameIndex + max 1 (pyInt s.speed) <;>
      simp [onUpdate, hp, hn]

/-- The new frame index computed by one unpaused `on_update` tick. -/
theorem onUpdate_frameIndex (s : Playback) (hp : s.paused = false) :
    (onUpdate s).frameIndex =
      if s.nFrames ≤ s.frameIndex + max 1 (pyInt s.speed) then s.nFrames - 1
      else s.frameIndex + max 1 (pyInt s.speed) := by
  simp only [onUpdate, hp, Bool.false_eq_true, if_false]
  split_ifs <;> rfl

theorem pyInt_one : pyInt 1 = 1 := by decide

/-- One tick on the demo run: advance by one, clamping at 99. -/
theorem onUpdate_demoState (i : ℤ) :
    onUpdate ⟨i, 100, 1, false⟩ = ⟨if 100 ≤ i + 1 then 99 else i + 1, 100, 1, false⟩ := by
  simp only [onUpdate, pyInt_one, max_self, Bool.false_eq_true, if_false]
  norm_num
  split_ifs <;> rfl

/-- The first 99 ticks of the demo run advance the index one frame per tick. -/
theorem demo_run (k : ℕ) (hk : (k : ℤ) ≤ 99) :
    onUpdate^[k] demoPlayback = ⟨(k : ℤ), 100, 1, false⟩ := by
  induction k with
  | zero => rfl
  | succ n ih =>
    have hn : (n : ℤ) ≤ 99 := by push_cast at hk; omega
    rw [Function.iterate_succ_apply', ih hn, onUpdate_demoState]
    have h2 : ¬ ((100 : ℤ) ≤ (n : ℤ) + 1) := by push_cast at hk; omega
    have hcast : ((n + 1 : ℕ) : ℤ) = (n : ℤ) + 1 := by push_cast; ring
    rw [if_neg h2, hcast]

/-- From tick 99 on, the demo run is parked at frame 99. -/
theorem demo_hold (j : ℕ) :
    onUpdate^[99 + j] demoPlayback = ⟨99, 100, 1, false⟩ := by
  induction j with
  | zero =>
    show onUpdate^[99] demoPlayback = _
    rw [demo_run 99 (by norm_num)]
    simp only [Nat.cast_ofNat]
  | succ n ih =>
    rw [show 99 + (n + 1) = (99 + n) + 1 from rfl, Function.iterate_succ_apply', ih,
      onUpdate_demoState]
    norm_num [Playback.mk.injEq]

/-- The DOWN key only halves the speed (with the 0.1 floor). -/
theorem halve_step (s : Playback) :
    onKeyPress s Key.down = { s with speed := max (1/10) (s.speed / 2) } := rfl

/-- Repeated speed-halving from the fresh state is parked at 1/10 from tick 4 on. -/
theorem halve_demo_hold (j : ℕ) :
    (fun st => onKeyPress st Key.down)^[4 + j] demoPlayback = ⟨0, 100, 1/10, false⟩ := by
  induction j with
  | zero =>
    show ((fun st => onKeyPress st Key.down)^[4]) demoPlayback = _
    have e1 : onKeyPress demoPlayback Key.down = ⟨0, 100, 1/2, false⟩ := by
      rw [halve_step]
      simp only [demoPlayback, Playback.mk.injEq]
      norm_num [max_def]
    have e2 : onKeyPress ⟨0, 100, 1/2, false⟩ Key.down = ⟨0, 100, 1/4, false⟩ := by
      rw [halve_step]
      simp only [Playback.mk.injEq]
      norm_num [max_def]
    have e3 : onKeyPress ⟨0, 100, 1/4, false⟩ Key.down = ⟨0, 100, 1/8, false⟩ := by
      rw [halve_step]
      simp only [Playback.mk.injEq]
      norm_num [max_def]
    have e4 : onKeyPress ⟨0, 100, 1/8, false⟩ Key.down = ⟨0, 100, 1/10, false⟩ := by
      rw [halve_step]
      simp only [Playback.mk.injEq]
      norm_num [max_def]
    rw [show (4 : ℕ) = 3 + 1 from rfl, Function.iterate_succ_apply,
      show (3 : ℕ) = 2 + 1 from rfl, Function.iterate_succ_apply,
      show (2 : ℕ) = 1 + 1 from rfl, Function.iterate_succ_apply,
      Function.iterate_one]
    show onKeyPress (onKeyPress (onKeyPress (onKeyPress demoPlayback Key.down)
      Key.down) Key.down) Key.down = _
    rw [e1, e2, e3, e4]
  | succ n ih =>
    rw [show 4 + (n + 1) = (4 + n) + 1 from rfl, Function.iterate_succ_apply', ih]
    show onKeyPress _ Key.down = _
    rw [halve_step]
    simp only [Playback.mk.injEq]
    norm_num [max_def]

/-! ## Claim theorems -/

/-- C3: an unpaused tick on a valid state sets the index to
`min(index + max(1, floor(speed)), n_frames - 1)`; with speed 1 and 100 frames,
50 ticks from index 0 reach 50, 100 ticks clamp at 99, and further ticks hold. -/
theorem tick_advances_and_clamps :
    (∀ s : Playback, s.paused = false → 1 ≤ s.nFrames →
      0 ≤ s.frameIndex → s.frameIndex ≤ s.nFrames - 1 →
      (onUpdate s).frameIndex = min (s.frameIndex + max 1 ⌊s.speed⌋) (s.nFrames - 1)) ∧
    (onUpdate^[50] demoPlayback).frameIndex = 50 ∧
    (onUpdate^[100] demoPlayback).frameIndex = 99 ∧
    ∀ k : ℕ, (onUpdate^[100 + k] demoPlayback).frameIndex = 99 := by
  refine ⟨?_, by rw [demo_run 50 (by norm_num)]; norm_num,
    by rw [show (100 : ℕ) = 99 + 1 from rfl, demo_hold 1],
    fun k => by rw [show 100 + k = 99 + (1 + k) from by omega, demo_hold (1 + k)]⟩
  intro s hp h1 h0 hle
  rw [onUpdate_frameIndex s hp, ← max_one_pyInt]
  have hst : 1 ≤ max 1 (pyInt s.speed) := le_max_left _ _
  split
  · omega
  · omega

/-- C3 witness: the tick equation evaluated on a concrete state. -/
theorem tick_advances_and_clamps_witness :
    (onUpdate ⟨5, 100, 1, false⟩).frameIndex = min (5 + max 1 ⌊(1 : ℚ)⌋) (100 - 1) :=
  tick_advances_and_clamps.1 ⟨5, 100, 1, false⟩ rfl (by decide) (by decide) (by decide)

/-- C4: every controller operation keeps the frame index an integer in
`[0, n_frames-1]`; seeks land at `clamp(index ± 10, 0, n_frames-1)` regardless
of pause state; seek(-10) from 5 gives 0 and seek(+10) from 95 of 100 gives 99. -/
theorem index_invariant_and_seek :
    (∀ (s : Playback) (k : Key), 1 ≤ s.nFrames →
      0 ≤ s.frameIndex → s.frameIndex ≤ s.nFrames - 1 →
      (0 ≤ (onKeyPress s k).frameIndex ∧
        (onKeyPress s k).frameIndex ≤ s.nFrames - 1) ∧
      (0 ≤ (onUpdate s).frameIndex ∧ (onUpdate s).frameIndex ≤ s.nFrames - 1)) ∧
    (∀ s : Playback, 1 ≤ s.nFrames → 0 ≤ s.frameIndex → s.frameIndex ≤ s.nFrames - 1 →
      (onKeyPress s Key.right).frameIndex = clampInt (s.frameIndex + 10) 0 (s.nFrames - 1) ∧
      (onKeyPress s Key.left).frameIndex = clampInt (s.frameIndex - 10) 0 (s.nFrames - 1)) ∧
    (onKeyPress ⟨5, 100, 1, false⟩ Key.left).frameIndex = 0 ∧
    (onKeyPress ⟨95, 100, 1, false⟩ Key.right).frameIndex = 99 := by
  refine ⟨?_, ?_, by decide, by decide⟩
  · intro s k h1 h0 hle
    constructor
    · cases k <;> simp [onKeyPress] <;> omega
    · rcases Bool.eq_false_or_eq_true s.paused with hp | hp
      · have hps : onUpdate s = s := by simp [onUpdate, hp]
        rw [hps]
        omega
      · have hst : 1 ≤ max 1 (pyInt s.speed) := le_max_left _ _
        rw [onUpdate_frameIndex s hp]
        split <;> omega
  · intro s h1 h0 hle
    unfold clampInt
    constructor
    · simp [onKeyPress]; omega
    · simp [onKeyPress]; omega

/-- C4 witness: the invariant and the seek formula on a concrete state. -/
theorem index_invariant_and_seek_witness :
    ((0 ≤ (onKeyPress ⟨5, 100, 1, false⟩ Key.left).frameIndex ∧
        (onKeyPress ⟨5, 100, 1, false⟩ Key.left).frameIndex ≤ 100 - 1) ∧
      (0 ≤ (onUpdate ⟨5, 100, 1, false⟩).frameIndex ∧
        (onUpdate ⟨5, 100, 1, false⟩).frameIndex ≤ 100 - 1)) :=
  index_invariant_and_seek.1 ⟨5, 100, 1, false⟩ Key.left
    (by decide) (by decide) (by decide)

/-- C5: halving yields `max(0.1, s/2)`, doubling yields `2*s` with no ceiling;
from speed 1.0, four or more halvings sit exactly at 0.1, and halving never
goes below 0.1. -/
theorem speed_floor_and_double :
    (∀ s : Playback, (onKeyPress s Key.down).speed = max (1/10) (s.speed / 2)) ∧
    (∀ s : Playback, (onKeyPress s Key.up).speed = 2 * s.speed) ∧
    (∀ k : ℕ, 4 ≤ k →
      ((fun st => onKeyPress st Key.down)^[k] demoPlayback).speed = 1/10) ∧
    (∀ s : Playback, 1/10 ≤ (onKeyPress s Key.down).speed) := by
  refine ⟨fun s => rfl, fun s => by simp [onKeyPress, mul_comm], ?_, fun s => le_max_left _ _⟩
  intro k hk
  obtain ⟨j, rfl⟩ : ∃ j, k = 4 + j := ⟨k - 4, by omega⟩
  rw [halve_demo_hold]

/-- C5 witness: five halvings from speed 1.0 sit exactly at 0.1. -/
theorem speed_floor_and_double_witness :
    ((fun st => onKeyPress st Key.down)^[5] demoPlayback).speed = 1/10 :=
  speed_floor_and_double.2.2.1 5 (by omega)

/-- C6: `world_to_screen` is the pure affine map `(scale*x + tx, scale*y + ty)`,
and after `update_scaling(w, h)` the world bounding-box center lands on the
screen center within half a pixel, with the aspect-preserving minimum scale. -/
theorem toScreen_affine_and_centered :
    (∀ (v : Viewport) (x y : ℚ),
      worldToScreen v x y = (v.worldScale * x + v.tx, v.worldScale * y + v.ty)) ∧
    (∀ (v : Viewport) (w h : ℚ), 0 < w → 0 < h →
      |(worldToScreen (updateScaling v w h)
          ((v.xMin + v.xMax) / 2) ((v.yMin + v.yMax) / 2)).1 - w / 2| ≤ 1/2 ∧
      |(worldToScreen (updateScaling v w h)
          ((v.xMin + v.xMax) / 2) ((v.yMin + v.yMax) / 2)).2 - h / 2| ≤ 1/2 ∧
      (updateScaling v w h).worldScale =
        min (w * (1 - 2 * padFrac) / worldW v) (h * (1 - 2 * padFrac) / worldH v)) := by
  refine ⟨fun v x y => rfl, fun v w h hw hh => ⟨?_, ?_, rfl⟩⟩
  · simp only [updateScaling, worldToScreen]
    ring_nf
    simp
  · simp only [updateScaling, worldToScreen]
    ring_nf
    simp

/-- C6 witness: centering evaluated on a concrete viewport and window size. -/
theorem toScreen_affine_and_centered_witness :
    |(worldToScreen (updateScaling demoViewport 100 200)
        ((demoViewport.xMin + demoViewport.xMax) / 2)
        ((demoViewport.yMin + demoViewport.yMax) / 2)).1 - 100 / 2| ≤ 1/2 ∧
    |(worldToScreen (updateScaling demoViewport 100 200)
        ((demoViewport.xMin + demoViewport.xMax) / 2)
        ((demoViewport.yMin + demoViewport.yMax) / 2)).2 - 200 / 2| ≤ 1/2 :=
  ⟨(toScreen_affine_and_centered.2 demoViewport 100 200 (by norm_num) (by norm_num)).1,
   (toScreen_affine_and_centered.2 demoViewport 100 200 (by norm_num) (by norm_num)).2.1⟩

/-- C9: `update_scaling` is idempotent — recomputing with the same dimensions
reproduces the same scale, translation and cached screen geometry. -/
theorem recompute_idempotent :
    ∀ (v : Viewport) (w h : ℚ), 0 < w → 0 < h →
      updateScaling (updateScaling v w h) w h = updateScaling v w h := by
  intro v w h _ _
  rfl

/-- C9 witness: idempotence evaluated on a concrete viewport. -/
theorem recompute_idempotent_witness :
    updateScaling (updateScaling demoViewport 100 200) 100 200 =
      updateScaling demoViewport 100 200 :=
  recompute_idempotent demoViewport 100 200 (by norm_num) (by norm_num)

/-! ## Lemmas about the lexicographic leader order -/

theorem tupLt_irrefl (a : ℤ × ℚ) : ¬ tupLt a a := by
  simp [tupLt]

theorem tupLt_trans {a b c : ℤ × ℚ} (h1 : tupLt a b) (h2 : tupLt b c) : tupLt a c := by
  rcases h1 with h | ⟨e1, q1⟩ <;> rcases h2 with h' | ⟨e2, q2⟩
  · exact Or.inl (lt_trans h h')
  · exact Or.inl (e2 ▸ h)
  · exact Or.inl (e1 ▸ h')
  · exact Or.inr ⟨e1.trans e2, lt_trans q1 q2⟩

theorem tupLt_neg_trans {a b c : ℤ × ℚ} (h1 : ¬ tupLt a b) (h2 : ¬ tupLt b c) :
    ¬ tupLt a c := by
  unfold tupLt at *
  push_neg at h1 h2
  intro hc
  rcases hc with h | ⟨heq, hq⟩
  · have hba := h1.1
    have hcb := h2.1
    omega
  · have hba := h1.1
    have hcb := h2.1
    have hab : a.1 = b.1 := by omega
    have hbc : b.1 = c.1 := by omega
    have h1q := h1.2 hab
    have h2q := h2.2 hbc
    exact absurd hq (not_lt.mpr (le_trans h2q h1q))

/-- Python `max`'s fold returns an element of the list whose key no other
element strictly exceeds. -/
theorem leader_fold_spec (es : List (String × DriverPos)) (e : String × DriverPos) :
    es.foldl leaderStep e ∈ e :: es ∧
      ∀ x ∈ e :: es, ¬ tupLt (leaderKey (es.foldl leaderStep e).2) (leaderKey x.2) := by
  induction es generalizing e with
  | nil =>
    refine ⟨List.mem_singleton.mpr rfl, ?_⟩
    intro x hx
    rw [List.mem_singleton] at hx
    subst hx
    exact tupLt_irrefl _
  | cons y ys ih =>
    rw [List.foldl_cons]
    obtain ⟨hmem, hub⟩ := ih (leaderStep e y)
    by_cases hly : tupLt (leaderKey e.2) (leaderKey y.2)
    · have hs : leaderStep e y = y := if_pos hly
      rw [hs] at hmem hub ⊢
      refine ⟨List.mem_cons_of_mem _ hmem, ?_⟩
      intro x hx
      rcases List.mem_cons.mp hx with rfl | hx'
      · intro hme
        exact hub y (List.mem_cons_self _ _) (tupLt_trans hme hly)
      · exact hub x hx'
    · have hs : leaderStep e y = e := if_neg hly
      rw [hs] at hmem hub ⊢
      constructor
      · rcases List.mem_cons.mp hmem with hm | hm
        · rw [hm]
          exact List.mem_cons_self _ _
        · exact List.mem_cons_of_mem _ (List.mem_cons_of_mem _ hm)
      · intro x hx
        rcases List.mem_cons.mp hx with rfl | hx'
        · exact hub x (List.mem_cons_self _ _)
        rcases List.mem_cons.mp hx' with rfl | hx''
        · exact tupLt_neg_trans (hub e (List.mem_cons_self _ _)) hly
        · exact hub x (List.mem_cons_of_mem _ hx'')

/-! ## HUD time formatting at t = 3725 s -/

theorem raceHours_3725 : raceHours 3725 = 1 := by
  norm_num [raceHours]

theorem raceMinutes_3725 : raceMinutes 3725 = 2 := by
  norm_num [raceMinutes, pymod]

theorem raceSeconds_3725 : raceSeconds 3725 = 5 := by
  have h : pymod 3725 60 = 5 := by norm_num [pymod]
  rw [raceSeconds, h]
  decide

theorem timeStr_3725 : timeStr 3725 = "01:02:05" := by
  rw [timeStr, raceHours_3725, raceMinutes_3725, raceSeconds_3725]
  decide

/-- C7: with A (lap 2, dist 50) and B (lap 3, dist 10), the leader is B; in
general the selected leader is a driver of the frame whose `(lap, dist)` key
no other driver lexicographically exceeds, and the HUD shows its lap number
and the frame time as HH:MM:SS. -/
theorem leader_lex_max_and_hud :
    leaderCode frameLap = some "B" ∧
    (∀ (f : Frame) (e : String × DriverPos), leaderEntry f = some e →
      e ∈ f.drivers ∧
      (∀ x ∈ f.drivers, ¬ tupLt (leaderKey e.2) (leaderKey x.2)) ∧
      hudLapText f = some ("Lap " ++ toString (e.2.lap.getD 1))) ∧
    hudTimeText frameLap = "Race: 01:02:05" := by
  refine ⟨by decide, ?_, ?_⟩
  · intro f e he
    unfold leaderEntry at he
    split at he
    · exact absurd he (by simp)
    · next hd tl heq =>
      obtain ⟨hmem, hub⟩ := leader_fold_spec tl hd
      have hee : tl.foldl leaderStep hd = e := by
        simpa using he
      have hle : leaderEntry f = some e := by
        unfold leaderEntry
        rw [heq]
        exact he
      refine ⟨?_, ?_, ?_⟩
      · rw [heq, ← hee]
        exact hmem
      · intro x hx
        rw [← hee]
        exact hub x (by rw [← heq]; exact hx)
      · simp [hudLapText, leaderLap, hle]
  · rw [hudTimeText, show frameLap.t = 3725 from rfl, timeStr_3725]
    decide

/-- C7 witness: the leader contract applied to the concrete two-driver frame. -/
theorem leader_lex_max_and_hud_witness :
    ("B", (⟨0, 0, some 3, some 10, none⟩ : DriverPos)) ∈ frameLap.drivers ∧
      (∀ x ∈ frameLap.drivers,
        ¬ tupLt (leaderKey (⟨0, 0, some 3, some 10, none⟩ : DriverPos))
          (leaderKey x.2)) ∧
      hudLapText frameLap = some ("Lap " ++ toString ((3 : ℤ))) :=
  leader_lex_max_and_hud.2.1 frameLap ("B", ⟨0, 0, some 3, some 10, none⟩) (by decide)

/-- C1 counterexample: for A (dist 10), B (dist 30), C (dist 20, rel_dist 1)
the rendered order is B, C, A — not B, A, C as claimed. -/
theorem leaderboard_order_counterexample :
    (leaderboardList frameABC).map Prod.fst = ["B", "C", "A"] ∧
    (leaderboardList frameABC).map Prod.fst ≠ ["B", "A", "C"] := by
  constructor <;> decide

/-- C1 (amended): the A/B/C frame renders as B, then C annotated OUT, then A;
in general the leaderboard is the driver mapping re-ordered by non-increasing
distance key, stably (a pair already in non-increasing key order keeps its
relative order, so ties keep the mapping's iteration order), listing every
driver exactly once, and a driver is annotated OUT iff its rel_dist equals 1. -/
theorem leaderboard_ranking :
    leaderboardRows frameABC = [" 1. B", " 2. C   OUT", " 3. A"] ∧
    (∀ f : Frame, (leaderboardList f).Pairwise lbRel) ∧
    (∀ f : Frame, (leaderboardList f).Perm f.drivers) ∧
    (∀ (f : Frame) (a b : String × DriverPos), lbRel a b →
      [a, b].Sublist f.drivers → [a, b].Sublist (leaderboardList f)) ∧
    (∀ p : DriverPos, isOut p = true ↔ p.relDist = some 1) := by
  refine ⟨by decide, fun f => List.sorted_insertionSort lbRel f.drivers,
    fun f => List.perm_insertionSort lbRel f.drivers,
    fun f a b hab hsub => List.pair_sublist_insertionSort hab hsub, ?_⟩
  intro p
  unfold isOut
  cases hp : p.relDist with
  | none => simp
  | some q => simp [beq_iff_eq]

/-- C1 witness: stability applied to the concrete B/C pair of the A/B/C frame. -/
theorem leaderboard_ranking_witness :
    [("B", (⟨0, 0, none, some 30, none⟩ : DriverPos)),
     ("C", (⟨0, 0, none, some 20, some 1⟩ : DriverPos))].Sublist
      (leaderboardList frameABC) :=
  leaderboard_ranking.2.2.2.1 frameABC
    ("B", ⟨0, 0, none, some 30, none⟩) ("C", ⟨0, 0, none, some 20, some 1⟩)
    (by decide) (by decide)

/-- C10: a missing distance ranks in the leaderboard with key 999 (hence above
every driver whose key is below 999) but counts as 0 (with lap defaulting
to 1) for leader selection; concretely, X with no recorded distance tops the
leaderboard while Y is selected leader. -/
theorem missing_dist_defaults :
    (∀ p : DriverPos, p.dist = none → lbKey p = 999) ∧
    (∀ p : DriverPos, p.dist = none → leaderKey p = (p.lap.getD 1, 0)) ∧
    (∀ (f : Frame) (a b : String × DriverPos), a.2.dist = none →
      [b, a].Sublist (leaderboardList f) → 999 ≤ lbKey b.2) ∧
    (leaderboardList frameMissing).map Prod.fst = ["X", "Y"] ∧
    leaderCode frameMissing = some "Y" := by
  refine ⟨?_, ?_, ?_, by decide, by decide⟩
  · intro p hp
    simp [lbKey, hp]
  · intro p hp
    simp [leaderKey, hp]
  · intro f a b ha hsub
    have hpair : ([b, a] : List (String × DriverPos)).Pairwise lbRel :=
      (List.sorted_insertionSort lbRel f.drivers).sublist hsub
    have hba : lbRel b a := by
      have := List.pairwise_cons.mp hpair
      exact this.1 a (List.mem_singleton.mpr rfl)
    have h999 : lbKey a.2 = 999 := by simp [lbKey, ha]
    calc (999 : ℚ) = lbKey a.2 := h999.symm
      _ ≤ lbKey b.2 := hba

/-- C10 witness: the differing defaults evaluated on a distance-less entry. -/
theorem missing_dist_defaults_witness :
    lbKey ⟨0, 0, none, none, none⟩ = 999 ∧
      leaderKey ⟨0, 0, none, none, none⟩ =
        ((⟨0, 0, none, none, none⟩ : DriverPos).lap.getD 1, 0) :=
  ⟨missing_dist_defaults.1 ⟨0, 0, none, none, none⟩ rfl,
   missing_dist_defaults.2.1 ⟨0, 0, none, none, none⟩ rfl⟩

/-! ## Degenerate-case guards (C8) -/

/-- C8 counterexample: `np.gradient` needs at least 2 samples, so track
construction raises on the non-empty single-sample lap — it is not total on
every non-empty input. -/
theorem track_totality_counterexample :
    buildTrack [(0 : ℝ)] [(0 : ℝ)] = none ∧ ([(0 : ℝ)] : List ℝ) ≠ [] := by
  constructor
  · unfold buildTrack
    rw [if_pos (by norm_num)]
  · simp

/-- C8 (amended): neither track construction nor viewport recomputation
divides by zero — a vanishing tangent norm is replaced by 1 (so the guarded
norm is always positive) and the world extents are floored to 1 — and track
construction succeeds on every input of at least 2 samples (`np.gradient`'s
minimum), while viewport recomputation is total on every viewport. -/
theorem division_guards :
    (∀ (xs ys : List ℝ) (i : ℕ), normAt xs ys i = 0 → gNormAt xs ys i = 1) ∧
    (∀ (xs ys : List ℝ) (i : ℕ), 0 < gNormAt xs ys i) ∧
    (∀ v : Viewport, 1 ≤ worldW v ∧ 1 ≤ worldH v) ∧
    (∀ xs ys : List ℝ, 2 ≤ xs.length → 2 ≤ ys.length →
      (buildTrack xs ys).isSome = true) := by
  refine ⟨?_, ?_, fun v => ⟨le_max_left 1 _, le_max_left 1 _⟩, ?_⟩
  · intro xs ys i h
    unfold gNormAt
    rw [if_pos h]
  · intro xs ys i
    unfold gNormAt
    split
    · norm_num
    · next h =>
      exact lt_of_le_of_ne (Real.sqrt_nonneg _) (Ne.symm h)
  · intro xs ys hx hy
    unfold buildTrack
    rw [if_neg (by omega)]
    rfl

/-- C8 witness: the guards evaluated on a concrete two-sample lap. -/
theorem division_guards_witness :
    (2 ≤ ([(0 : ℝ), 1] : List ℝ).length) ∧
      (buildTrack [(0 : ℝ), 1] [(0 : ℝ), 0]).isSome = true :=
  ⟨by norm_num,
   division_guards.2.2.2 [0, 1] [0, 0] (by norm_num) (by norm_num)⟩

/-! ## Boundary geometry and resampling (C2) -/

theorem interp1_single (x0 f0 : ℝ) (fr : List ℝ) (t : ℝ) :
    interp1 [x0] (f0 :: fr) t = f0 := rfl

theorem interp1_cons2 (x0 x1 : ℝ) (xr : List ℝ) (f0 f1 : ℝ) (fr : List ℝ) (t : ℝ) :
    interp1 (x0 :: x1 :: xr) (f0 :: f1 :: fr) t =
      if t ≤ x0 then f0
      else if t ≤ x1 then f0 + (f1 - f0) * (t - x0) / (x1 - x0)
      else interp1 (x1 :: xr) (f1 :: fr) t := rfl

theorem linspace01_length (n : ℕ) : (linspace01 n).length = n := by
  unfold linspace01
  rw [List.length_map, List.length_range]

theorem interpolatePoints_length (xs ys : List ℝ) (m : ℕ) :
    (interpolatePoints xs ys m).length = m := by
  simp only [interpolatePoints]
  rw [List.length_map, linspace01_length]

theorem xInner_length (xs ys : List ℝ) : (xInner xs ys).length = xs.length := by
  simp [xInner]

theorem yInner_length (xs ys : List ℝ) : (yInner xs ys).length = ys.length := by
  simp [yInner]

theorem xOuter_length (xs ys : List ℝ) : (xOuter xs ys).length = xs.length := by
  simp [xOuter]

theorem yOuter_length (xs ys : List ℝ) : (yOuter xs ys).length = ys.length := by
  simp [yOuter]

/-- The resampling parameter grid is strictly increasing. -/
theorem linspace01_chain (n : ℕ) : (linspace01 n).Chain' (· < ·) := by
  rcases Nat.lt_or_ge n 2 with h | h
  · interval_cases n
    · simp [linspace01]
    · have h1 : linspace01 1 = [0] := by
        unfold linspace01
        rw [show List.range 1 = [0] from rfl]
        simp
      rw [h1]
      exact List.chain'_singleton _
  · apply List.Pairwise.chain'
    unfold linspace01
    rw [List.pairwise_map]
    have hpos : (0 : ℝ) < (n : ℝ) - 1 := by
      have h2 : (2 : ℝ) ≤ (n : ℝ) := by exact_mod_cast h
      linarith
    refine (List.pairwise_lt_range n).imp ?_
    intro a b hab
    exact (div_lt_div_iff_of_pos_right hpos).mpr (by exact_mod_cast hab)

/-- Each value of `np.interp` over a strictly increasing grid is a convex
combination of two consecutive data values (the same cell and weight for both
coordinate arrays, since they share the grid and parameter). -/
theorem interp1_segment :
    ∀ (xp fx fy : List ℝ) (t : ℝ), xp.Chain' (· < ·) →
      fx.length = xp.length → fy.length = xp.length → xp ≠ [] →
      ∃ (j : ℕ) (s : ℝ), 0 ≤ s ∧ s ≤ 1 ∧ j < xp.length ∧
        interp1 xp fx t = (1 - s) * fx.getD j 0 + s * fx.getD (j + 1) 0 ∧
        interp1 xp fy t = (1 - s) * fy.getD j 0 + s * fy.getD (j + 1) 0 := by
  intro xp
  induction xp with
  | nil => intro fx fy t _ _ _ hne; exact absurd rfl hne
  | cons x0 rest ih =>
    intro fx fy t hchain hfx hfy _
    cases rest with
    | nil =>
      cases fx with
      | nil => simp at hfx
      | cons f0 ftl =>
        cases fy with
        | nil => simp at hfy
        | cons g0 gtl =>
          refine ⟨0, 0, le_refl 0, by norm_num, by norm_num, ?_, ?_⟩
          · rw [interp1_single]; simp
          · rw [interp1_single]; simp
    | cons x1 xr =>
      obtain ⟨h01, htail⟩ := List.chain'_cons.mp hchain
      cases fx with
      | nil => simp at hfx
      | cons f0 ftl =>
      cases ftl with
      | nil => simp only [List.length_cons, List.length_nil] at hfx; omega
      | cons f1 ftl2 =>
      cases fy with
      | nil => simp at hfy
      | cons g0 gtl =>
      cases gtl with
      | nil => simp only [List.length_cons, List.length_nil] at hfy; omega
      | cons g1 gtl2 =>
      by_cases h0 : t ≤ x0
      · refine ⟨0, 0, le_refl 0, by norm_num, by simp, ?_, ?_⟩
        · rw [interp1_cons2, if_pos h0]; simp
        · rw [interp1_cons2, if_pos h0]; simp
      by_cases h1 : t ≤ x1
      · have hlt : x0 < t := not_le.mp h0
        have hden : (0 : ℝ) < x1 - x0 := by linarith
        refine ⟨0, (t - x0) / (x1 - x0), div_nonneg (by linarith) hden.le,
          by rw [div_le_one hden]; linarith, by simp, ?_, ?_⟩
        · rw [interp1_cons2, if_neg h0, if_pos h1]
          simp only [List.getD_cons_zero, List.getD_cons_succ]
          field_simp
          ring
        · rw [interp1_cons2, if_neg h0, if_pos h1]
          simp only [List.getD_cons_zero, List.getD_cons_succ]
          field_simp
          ring
      · obtain ⟨j, s, hs0, hs1, hj, hfx2, hfy2⟩ :=
          ih (f1 :: ftl2) (g1 :: gtl2) t htail
            (by simp only [List.length_cons] at hfx ⊢; omega)
            (by simp only [List.length_cons] at hfy ⊢; omega)
            (by simp)
        refine ⟨j + 1, s, hs0, hs1,
          by simp only [List.length_cons] at hj ⊢; omega, ?_, ?_⟩
        · rw [interp1_cons2, if_neg h0, if_neg h1, hfx2]
          simp only [List.getD_cons_succ]
        · rw [interp1_cons2, if_neg h0, if_neg h1, hfy2]
          simp only [List.getD_cons_succ]

/-- Where the tangent norm is nonzero, `(nx, ny)` is a unit vector. -/
theorem normal_unit (xs ys : List ℝ) (i : ℕ) (h : normAt xs ys i ≠ 0) :
    nxAt xs ys i ^ 2 + nyAt xs ys i ^ 2 = 1 := by
  have hg : gNormAt xs ys i = normAt xs ys i := if_neg h
  have hs : (0 : ℝ) ≤ gradAt xs i ^ 2 + gradAt ys i ^ 2 := by positivity
  have hsq : normAt xs ys i ^ 2 = gradAt xs i ^ 2 + gradAt ys i ^ 2 := Real.sq_sqrt hs
  unfold nxAt nyAt
  rw [hg]
  field_simp
  rw [hsq]
  ring

/-- Where the tangent norm is nonzero, the inner and outer offset points are
exactly half the track width away from their centerline sample. -/
theorem offset_halfwidth (xs ys : List ℝ) (i : ℕ) (h : normAt xs ys i ≠ 0) :
    (xInnerAt xs ys i - xs.getD i 0) ^ 2 + (yInnerAt xs ys i - ys.getD i 0) ^ 2
        = (trackWidth / 2) ^ 2 ∧
    (xOuterAt xs ys i - xs.getD i 0) ^ 2 + (yOuterAt xs ys i - ys.getD i 0) ^ 2
        = (trackWidth / 2) ^ 2 := by
  have key := normal_unit xs ys i h
  constructor
  · unfold xInnerAt yInnerAt
    linear_combination ((trackWidth / 2) ^ 2) * key
  · unfold xOuterAt yOuterAt
    linear_combination ((trackWidth / 2) ^ 2) * key

/-- C2 counterexample: on the non-empty lap `[(0,0), (0,0)]` the tangent is
zero, the guard keeps the normal at zero, and the inner offset point coincides
with its centerline sample — its distance is 0, not the half width. -/
theorem boundary_halfwidth_counterexample :
    ([(0 : ℝ), 0] : List ℝ) ≠ [] ∧
    (xInnerAt [0, 0] [0, 0] 0 - ([(0 : ℝ), 0] : List ℝ).getD 0 0) ^ 2 +
      (yInnerAt [0, 0] [0, 0] 0 - ([(0 : ℝ), 0] : List ℝ).getD 0 0) ^ 2
        ≠ (trackWidth / 2) ^ 2 := by
  refine ⟨by simp, ?_⟩
  have hg : gradAt ([0, 0] : List ℝ) 0 = 0 := by simp [gradAt]
  have hn : normAt [0, 0] [0, 0] 0 = 0 := by
    simp [normAt, hg, Real.sqrt_zero]
  have hx : xInnerAt [0, 0] [0, 0] 0 = 0 := by
    simp [xInnerAt, nxAt, gNormAt, hn, hg]
  have hy : yInnerAt [0, 0] [0, 0] 0 = 0 := by
    simp [yInnerAt, nyAt, gNormAt, hn, hg]
  rw [hx, hy]
  norm_num [trackWidth]

/-- C2 (amended): for every lap of at least 2 samples (`np.gradient`'s
minimum) whose central-difference tangents are all nonzero, the resampled
inner and outer boundary sequences have exactly the configured 2000 points;
each pre-resampling offset point sits exactly half the track width (100 world
units) from its centerline sample along the unit normal; and each resampled
boundary point is a convex combination of two consecutive offset points. -/
theorem boundary_resample_spec (xs ys : List ℝ)
    (h2 : 2 ≤ xs.length) (hlen : ys.length = xs.length)
    (hnz : ∀ i < xs.length, normAt xs ys i ≠ 0) :
    (worldInnerPoints xs ys).length = 2000 ∧
    (worldOuterPoints xs ys).length = 2000 ∧
    (∀ i < xs.length,
      (xInnerAt xs ys i - xs.getD i 0) ^ 2 + (yInnerAt xs ys i - ys.getD i 0) ^ 2
          = (trackWidth / 2) ^ 2 ∧
      (xOuterAt xs ys i - xs.getD i 0) ^ 2 + (yOuterAt xs ys i - ys.getD i 0) ^ 2
          = (trackWidth / 2) ^ 2) ∧
    (∀ p ∈ worldInnerPoints xs ys, ∃ (j : ℕ) (s : ℝ), 0 ≤ s ∧ s ≤ 1 ∧ j < xs.length ∧
      p.1 = (1 - s) * (xInner xs ys).getD j 0 + s * (xInner xs ys).getD (j + 1) 0 ∧
      p.2 = (1 - s) * (yInner xs ys).getD j 0 + s * (yInner xs ys).getD (j + 1) 0) ∧
    (∀ p ∈ worldOuterPoints xs ys, ∃ (j : ℕ) (s : ℝ), 0 ≤ s ∧ s ≤ 1 ∧ j < xs.length ∧
      p.1 = (1 - s) * (xOuter xs ys).getD j 0 + s * (xOuter xs ys).getD (j + 1) 0 ∧
      p.2 = (1 - s) * (yOuter xs ys).getD j 0 + s * (yOuter xs ys).getD (j + 1) 0) := by
  refine ⟨interpolatePoints_length _ _ 2000, interpolatePoints_length _ _ 2000,
    fun i hi => offset_halfwidth xs ys i (hnz i hi), ?_, ?_⟩
  · intro p hp
    simp only [worldInnerPoints, interpolatePoints, List.mem_map] at hp
    obtain ⟨t, _, rfl⟩ := hp
    obtain ⟨j, s, hs0, hs1, hj, hx, hy⟩ :=
      interp1_segment (linspace01 (xInner xs ys).length) (xInner xs ys) (yInner xs ys) t
        (linspace01_chain _)
        (by rw [linspace01_length])
        (by rw [linspace01_length, xInner_length, yInner_length, hlen])
        (by
          apply List.ne_nil_of_length_pos
          rw [linspace01_length, xInner_length]
          omega)
    rw [linspace01_length, xInner_length] at hj
    exact ⟨j, s, hs0, hs1, hj, hx, hy⟩
  · intro p hp
    simp only [worldOuterPoints, interpolatePoints, List.mem_map] at hp
    obtain ⟨t, _, rfl⟩ := hp
    obtain ⟨j, s, hs0, hs1, hj, hx, hy⟩ :=
      interp1_segment (linspace01 (xOuter xs ys).length) (xOuter xs ys) (yOuter xs ys) t
        (linspace01_chain _)
        (by rw [linspace01_length])
        (by rw [linspace01_length, xOuter_length, yOuter_length, hlen])
        (by
          apply List.ne_nil_of_length_pos
          rw [linspace01_length, xOuter_length]
          omega)
    rw [linspace01_length, xOuter_length] at hj
    exact ⟨j, s, hs0, hs1, hj, hx, hy⟩

/-- C2 witness: the boundary contract applied to the straight two-sample lap
`[(0,0), (1,0)]`, whose tangents are unit vectors. -/
theorem boundary_resample_spec_witness :
    (2 ≤ ([(0 : ℝ), 1] : List ℝ).length) ∧
      (worldInnerPoints [(0 : ℝ), 1] [(0 : ℝ), 0]).length = 2000 :=
  ⟨by norm_num,
   (boundary_resample_spec [0, 1] [0, 0] (by norm_num) (by norm_num)
     (by
       intro i hi
       simp only [List.length_cons, List.length_nil] at hi
       interval_cases i <;>
         norm_num [normAt, gradAt, Real.sqrt_one])).1⟩

end F1Replay
